import Mathlib

/-!
Verification of `pyvista/core/filters/composite.py` (class `CompositeFilters`):
a thin delegation layer exposing composite (multi-block) dataset filters.

Shallow embedding: leaf datasets are point lists (rational coordinates) with
cells as index lists; a composite is a tree of blocks.  The external engine
primitives (VTK append filter, box primitive, single-dataset filters), which
live outside this file's source, are modelled from the specification and are
marked as such in their doc comments.
-/

/-- A point in model space: rational coordinates `(x, y, z)`. -/
abbrev Point : Type := ℚ × ℚ × ℚ

/-- Squared Euclidean distance between two points. -/
def sqDist (p q : Point) : ℚ :=
  (p.1 - q.1) ^ 2 + (p.2.1 - q.2.1) ^ 2 + (p.2.2 - q.2.2) ^ 2

/-- Two points are coincident within tolerance `tol` when their Euclidean
distance is at most `tol`, i.e. squared distance at most `tol * tol`. -/
def coincident (tol : ℚ) (p q : Point) : Bool :=
  decide (sqDist p q ≤ tol * tol)

/-- A leaf dataset: point coordinates plus cell connectivity
(each cell a list of point indices). -/
structure Dataset where
  points : List Point
  cells : List (List ℕ)
deriving DecidableEq

/-- Number of points of a dataset. -/
def Dataset.nPoints (d : Dataset) : ℕ := d.points.length

/-- Number of cells of a dataset. -/
def Dataset.nCells (d : Dataset) : ℕ := d.cells.length

/-- Shift every point index of every cell by `off`. -/
def offsetCells (off : ℕ) (cells : List (List ℕ)) : List (List ℕ) :=
  cells.map (fun c => c.map (fun i => i + off))

/-- Plain (merge-free) append of a list of datasets: points are concatenated
and each input's cell indices are offset by the point count of the inputs
before it. -/
def appendRaw : List Dataset → Dataset
  | [] => ⟨[], []⟩
  | d :: rest =>
    let r := appendRaw rest
    ⟨d.points ++ r.points, d.cells ++ offsetCells d.points.length r.cells⟩

/-- One step of first-wins point merging: keep `p` only when no already-kept
point is coincident with it. -/
def mergeStep (tol : ℚ) (acc : List Point) (p : Point) : List Point :=
  if acc.any (fun q => coincident tol q p) then acc else acc ++ [p]

/-- Modelled from the spec: the engine's point-merge policy unifies coincident
points (within tolerance, Euclidean distance), first occurrence wins. -/
def mergePts (tol : ℚ) (ps : List Point) : List Point :=
  ps.foldl (mergeStep tol) []

/-- Index, in the merged point list, of the representative of the point at
global index `i` of the unmerged list: the first merged point coincident
with it. -/
def mergedIndex (tol : ℚ) (ps : List Point) (i : ℕ) : ℕ :=
  (mergePts tol ps).findIdx (fun q => coincident tol q (ps.getD i (0, 0, 0)))

/-- Modelled from the spec: the engine's append primitive ("append dataset into
accumulator with optional point-merge and tolerance").  Concatenates all
inputs; when `merge_points` is set, unifies points coincident within `tol`
and remaps cell connectivity to the surviving representatives. -/
def engineAppendTol (inputs : List Dataset) (merge_points : Bool) (tol : ℚ) :
    Dataset :=
  let raw := appendRaw inputs
  if merge_points then
    ⟨mergePts tol raw.points,
     raw.cells.map (fun c => c.map (mergedIndex tol raw.points))⟩
  else raw

/-- The engine's append filter as the source configures it: the source sets
only the merge flag and never sets a tolerance, so the engine default
tolerance `0` (exact coincidence) applies. -/
def engineAppend (inputs : List Dataset) (merge_points : Bool) : Dataset :=
  engineAppendTol inputs merge_points 0

mutual
/-- A block of a composite: either a leaf dataset or a nested composite. -/
inductive Block where
  | leaf (d : Dataset)
  | nested (c : Composite)
deriving DecidableEq

/-- An ordered collection of blocks (`vtkMultiBlockDataSet`). -/
inductive Composite where
  | nil
  | cons (b : Block) (rest : Composite)
deriving DecidableEq
end

mutual
/-- Total point count over all leaf datasets of a block. -/
def Block.leafPointCount : Block → ℕ
  | .leaf d => d.points.length
  | .nested c => c.leafPointCount

/-- Total point count over all leaf datasets of a composite. -/
def Composite.leafPointCount : Composite → ℕ
  | .nil => 0
  | .cons b rest => b.leafPointCount + rest.leafPointCount
end

mutual
/-- Total cell count over all leaf datasets of a block. -/
def Block.leafCellCount : Block → ℕ
  | .leaf d => d.cells.length
  | .nested c => c.leafCellCount

/-- Total cell count over all leaf datasets of a composite. -/
def Composite.leafCellCount : Composite → ℕ
  | .nil => 0
  | .cons b rest => b.leafCellCount + rest.leafCellCount
end

mutual
/-- All point coordinates of a block, leaves traversed depth-first. -/
def Block.allPoints : Block → List Point
  | .leaf d => d.points
  | .nested c => c.allPoints

/-- All point coordinates across all leaves of a composite, in order. -/
def Composite.allPoints : Composite → List Point
  | .nil => []
  | .cons b rest => b.allPoints ++ rest.allPoints
end

mutual
/-- The dataset contributed by one block to the append filter in `combine`:
a leaf is added directly; a nested composite is first combined recursively
(the source forwards only `merge_points`, leaving `tolerance` at its
default). -/
def Block.toInput (merge_points : Bool) : Block → Dataset
  | .leaf d => d
  | .nested c => engineAppend (c.inputs merge_points) merge_points

/-- The list of datasets the `combine` loop feeds to the append filter. -/
def Composite.inputs (merge_points : Bool) : Composite → List Dataset
  | .nil => []
  | .cons b rest => b.toInput merge_points :: rest.inputs merge_points
end

/-- Axis-aligned bounds: `(xmin, xmax, ymin, ymax, zmin, zmax)`. -/
structure Bounds where
  xmin : ℚ
  xmax : ℚ
  ymin : ℚ
  ymax : ℚ
  zmin : ℚ
  zmax : ℚ
deriving DecidableEq

/-- Grow bounds to cover one more point. -/
def Bounds.addPoint (b : Bounds) (p : Point) : Bounds :=
  ⟨min b.xmin p.1, max b.xmax p.1,
   min b.ymin p.2.1, max b.ymax p.2.1,
   min b.zmin p.2.2, max b.zmax p.2.2⟩

/-- Bounding box of a point list (the engine's uninitialized
`(1, -1, 1, -1, 1, -1)` convention for an empty input). -/
def boundsOf : List Point → Bounds
  | [] => ⟨1, -1, 1, -1, 1, -1⟩
  | p :: rest =>
    rest.foldl Bounds.addPoint ⟨p.1, p.1, p.2.1, p.2.1, p.2.2, p.2.2⟩

/-- Bounds of a dataset: min/max over its point coordinates. -/
def Dataset.bounds (d : Dataset) : Bounds := boundsOf d.points

/-- Modelled from the spec: a composite's bounds are the min/max over all
point coordinates across all leaves, recursively (`MultiBlock.bounds` is
outside this file's source). -/
def Composite.bounds (c : Composite) : Bounds := boundsOf c.allPoints

/-- The eight corner points of a bounds box, in canonical order. -/
def Bounds.corners (b : Bounds) : List Point :=
  [(b.xmin, b.ymin, b.zmin), (b.xmax, b.ymin, b.zmin),
   (b.xmax, b.ymax, b.zmin), (b.xmin, b.ymax, b.zmin),
   (b.xmin, b.ymin, b.zmax), (b.xmax, b.ymin, b.zmax),
   (b.xmax, b.ymax, b.zmax), (b.xmin, b.ymax, b.zmax)]

/-- The six quadrilateral faces of the canonical box, as corner indices. -/
def boxFaces : List (List ℕ) :=
  [[0, 1, 2, 3], [4, 5, 6, 7], [0, 1, 5, 4],
   [1, 2, 6, 5], [2, 3, 7, 6], [3, 0, 4, 7]]

/-- The twelve edges of the canonical box, as corner indices. -/
def boxEdges : List (List ℕ) :=
  [[0, 1], [1, 2], [2, 3], [3, 0],
   [4, 5], [5, 6], [6, 7], [7, 4],
   [0, 4], [1, 5], [2, 6], [3, 7]]

/-- Modelled from the spec: the box primitive constructor (`pyvista.Box` is
outside this file's source) — given axis-aligned bounds, a canonical box
dataset. -/
def Box (bounds : Bounds) : Dataset := ⟨bounds.corners, boxFaces⟩

/-- The wireframe outline of a bounds box: its eight corners, joined by
solid quadrilateral faces when `generate_faces` is set, by edges only
otherwise. -/
def outlineOfBounds (b : Bounds) (generate_faces : Bool) : Dataset :=
  ⟨b.corners, if generate_faces then boxFaces else boxEdges⟩

/-- The eight corners of a bounds box, each paired with the signs pointing
from that corner into the box along the three axes. -/
def Bounds.signedCorners (b : Bounds) : List (Point × ℚ × ℚ × ℚ) :=
  [((b.xmin, b.ymin, b.zmin), 1, 1, 1), ((b.xmax, b.ymin, b.zmin), -1, 1, 1),
   ((b.xmax, b.ymax, b.zmin), -1, -1, 1), ((b.xmin, b.ymax, b.zmin), 1, -1, 1),
   ((b.xmin, b.ymin, b.zmax), 1, 1, -1), ((b.xmax, b.ymin, b.zmax), -1, 1, -1),
   ((b.xmax, b.ymax, b.zmax), -1, -1, -1), ((b.xmin, b.ymax, b.zmax), 1, -1, -1)]

/-- The four marker points at one corner: the corner itself and, along each
axis, the point `factor` of the way along the corresponding box edge. -/
def cornerMarkerPoints (b : Bounds) (factor : ℚ) :
    Point × ℚ × ℚ × ℚ → List Point
  | (p, sx, sy, sz) =>
    [p,
     (p.1 + sx * factor * (b.xmax - b.xmin), p.2.1, p.2.2),
     (p.1, p.2.1 + sy * factor * (b.ymax - b.ymin), p.2.2),
     (p.1, p.2.1, p.2.2 + sz * factor * (b.zmax - b.zmin))]

/-- Corner markers of a bounds box: at each of the 8 corners, three short
segments whose length is `factor` times the corresponding edge length. -/
def cornerMarkersOfBounds (b : Bounds) (factor : ℚ) : Dataset :=
  ⟨(b.signedCorners.map (cornerMarkerPoints b factor)).flatten,
   ((List.range 8).map (fun i =>
     [[4 * i, 4 * i + 1], [4 * i, 4 * i + 2], [4 * i, 4 * i + 3]])).flatten⟩

namespace DataSetFilters

/-- Modelled from the spec: the single-dataset `outline` operation
(`DataSetFilters.outline` is outside this file's source) — the outline of
the input's axis-aligned bounding box, edges only or with solid faces.  It
takes the input's point coordinates, so it applies to leaf datasets and to
whole composites alike. -/
def outline (inputPoints : List Point) (generate_faces : Bool) : Dataset :=
  outlineOfBounds (boundsOf inputPoints) generate_faces

/-- Modelled from the spec: the single-dataset `outline_corners` operation
(outside this file's source) — corner markers at the 8 corners of the
input's bounding box, scaled by `factor`. -/
def outline_corners (inputPoints : List Point) (factor : ℚ) : Dataset :=
  cornerMarkersOfBounds (boundsOf inputPoints) factor

end DataSetFilters

namespace CompositeFilters

/-- `CompositeFilters.combine`: iterate the blocks, recursively combining
nested composites (forwarding only `merge_points`; the recursive call leaves
`tolerance` at its default `0.0`), feed everything to a `vtkAppendFilter`,
set its merge flag, and return the output.  The `tolerance` parameter is
accepted but never passed to the engine. -/
def combine (composite : Composite) (merge_points : Bool) (_tolerance : ℚ) :
    Dataset :=
  engineAppend (composite.inputs merge_points) merge_points

/-- `CompositeFilters.outline`: when `nested` is set, delegate to the
single-dataset outline applied directly to the composite; otherwise build
`pyvista.Box(bounds=composite.bounds)` and return that box's outline. -/
def outline (composite : Composite) (generate_faces : Bool) (nested : Bool) :
    Dataset :=
  if nested then DataSetFilters.outline composite.allPoints generate_faces
  else DataSetFilters.outline (Box composite.bounds).points generate_faces

/-- `CompositeFilters.outline_corners`: when `nested` is set, delegate to the
single-dataset corner outline applied directly to the composite; otherwise
build `pyvista.Box(bounds=composite.bounds)` and return that box's corner
outline. -/
def outline_corners (composite : Composite) (factor : ℚ) (nested : Bool) :
    Dataset :=
  if nested then DataSetFilters.outline_corners composite.allPoints factor
  else DataSetFilters.outline_corners (Box composite.bounds).points factor

end CompositeFilters

mutual
/-- State-passing reading of the `combine` loop on one block: the value the
loop variable takes (leaf added as is, nested composite first combined), and
the block as the traversal leaves it. -/
def Block.toInputSt (merge_points : Bool) : Block → Dataset × Block
  | .leaf d => (d, .leaf d)
  | .nested c =>
    let r := c.inputsSt merge_points
    (engineAppend r.1 merge_points, .nested r.2)

/-- State-passing reading of the `combine` loop on a composite: the datasets
fed to the append filter, and the composite as the traversal leaves it. -/
def Composite.inputsSt (merge_points : Bool) : Composite → List Dataset × Composite
  | .nil => ([], .nil)
  | .cons b rest =>
    let rb := b.toInputSt merge_points
    let rr := rest.inputsSt merge_points
    (rb.1 :: rr.1, .cons rb.2 rr.2)
end

mutual
/-- State-passing traversal collecting the leaf datasets of a block, with
the block as the traversal leaves it. -/
def Block.leavesSt : Block → List Dataset × Block
  | .leaf d => ([d], .leaf d)
  | .nested c =>
    let r := c.leavesSt
    (r.1, .nested r.2)

/-- State-passing traversal collecting the leaf datasets of a composite, with
the composite as the traversal leaves it. -/
def Composite.leavesSt : Composite → List Dataset × Composite
  | .nil => ([], .nil)
  | .cons b rest =>
    let rb := b.leavesSt
    let rr := rest.leavesSt
    (rb.1 ++ rr.1, .cons rb.2 rr.2)
end

namespace CompositeFilters

/-- `CompositeFilters.combine` with the input composite threaded as explicit
state: the source only iterates the composite (the engine reads its inputs),
so the state component records what the call leaves behind. -/
def combineSt (composite : Composite) (merge_points : Bool) (_tolerance : ℚ) :
    Dataset × Composite :=
  let r := composite.inputsSt merge_points
  (engineAppend r.1 merge_points, r.2)

/-- `CompositeFilters.extract_geometry` with the input composite threaded as
explicit state.  Modelled from the spec: the engine's composite-geometry
filter (`vtkCompositeDataGeometryFilter`, outside this file's source)
traverses the composite depth-first, extracts each leaf's exposed surface
(`surf`, an engine-owned black box), and appends the results without merging
points. -/
def extract_geometry (surf : Dataset → Dataset) (composite : Composite) :
    Dataset × Composite :=
  let r := composite.leavesSt
  (appendRaw (r.1.map surf), r.2)

end CompositeFilters

mutual
/-- Per-block observations: for every block of the tree, its bounds, its
total point count and its total cell count. -/
def Block.obs : Block → List (Bounds × ℕ × ℕ)
  | .leaf d => [(d.bounds, d.nPoints, d.nCells)]
  | .nested c =>
    (boundsOf c.allPoints, c.leafPointCount, c.leafCellCount) :: c.obs

/-- Per-block observations of every block of a composite, depth-first. -/
def Composite.obs : Composite → List (Bounds × ℕ × ℕ)
  | .nil => []
  | .cons b rest => b.obs ++ rest.obs
end

/-- Modelled from the spec: the single-dataset filter set as an abstract
record of the thirteen aliased operations (their behaviour is owned by the
sibling component, outside this file's source).  `α` stands for the pair of
an input dataset-or-composite and a full argument list, `β` for the result. -/
structure FilterSet (α β : Type) where
  clip : α → β
  clip_box : α → β
  slice : α → β
  slice_orthogonal : α → β
  slice_along_axis : α → β
  slice_along_line : α → β
  extract_all_edges : α → β
  elevation : α → β
  compute_cell_sizes : α → β
  cell_centers : α → β
  cell_data_to_point_data : α → β
  point_data_to_cell_data : α → β
  triangulate : α → β

/-- The composite layer's bindings, mirroring the thirteen assignments
`clip = DataSetFilters.clip`, ..., `triangulate = DataSetFilters.triangulate`
in the source: each operation is bound by reference from the single-dataset
filter set `D`, unmodified. -/
def compositeAliased {α β : Type} (D : FilterSet α β) : FilterSet α β :=
  FilterSet.mk D.clip D.clip_box D.slice D.slice_orthogonal
    D.slice_along_axis D.slice_along_line D.extract_all_edges D.elevation
    D.compute_cell_sizes D.cell_centers D.cell_data_to_point_data
    D.point_data_to_cell_data D.triangulate

/-- The top-level inputs of a composite when each nested block is processed
by `f` and each leaf contributes its dataset directly (used to state how
`combine` recurses). -/
def Composite.topInputs (f : Composite → Dataset) : Composite → List Dataset
  | .nil => []
  | .cons (.leaf d) rest => d :: rest.topInputs f
  | .cons (.nested sub) rest => f sub :: rest.topInputs f

/-- Validity of bounds: each minimum is at most the matching maximum. -/
def Bounds.valid (b : Bounds) : Prop :=
  b.xmin ≤ b.xmax ∧ b.ymin ≤ b.ymax ∧ b.zmin ≤ b.zmax

/-- A one-point, one-cell dataset at the origin. -/
def dOrigin : Dataset := ⟨[(0, 0, 0)], [[0]]⟩

/-- A one-point, one-cell dataset at `(1, 0, 0)`. -/
def dUnitX : Dataset := ⟨[(1, 0, 0)], [[0]]⟩

/-- A composite of two single-point leaves at distance `1` from each other. -/
def pairComposite : Composite :=
  .cons (.leaf dOrigin) (.cons (.leaf dUnitX) .nil)

/-- A one-leaf composite spanning bounds `[0,2] × [0,1] × [0,1]`. -/
def sampleA : Composite :=
  .cons (.leaf ⟨[(0, 0, 0), (2, 1, 1)], [[0, 1]]⟩) .nil

/-- A structurally different composite (two blocks, one nested, different
cells and an interior point) with the same bounds as `sampleA`. -/
def sampleB : Composite :=
  .cons (.leaf ⟨[(2, 1, 1)], []⟩)
    (.cons (.nested (.cons (.leaf ⟨[(0, 0, 0), (1, 1, 0)], [[0], [1]]⟩) .nil))
      .nil)

/-! ### Helper lemmas -/

theorem engineAppend_false (l : List Dataset) : engineAppend l false = appendRaw l := rfl

theorem appendRaw_nPoints (l : List Dataset) :
    (appendRaw l).points.length = (l.map (fun d => d.points.length)).sum := by
  induction l with
  | nil => rfl
  | cons d rest ih => simp [appendRaw, ih]

theorem mergeStep_length_le (tol : ℚ) (acc : List Point) (p : Point) :
    (mergeStep tol acc p).length ≤ acc.length + 1 := by
  unfold mergeStep
  split
  · exact Nat.le_succ _
  · simp

theorem foldl_mergeStep_length (tol : ℚ) :
    ∀ (l : List Point) (acc : List Point),
      (l.foldl (mergeStep tol) acc).length ≤ acc.length + l.length
  | [], acc => by simp
  | p :: rest, acc => by
    calc (List.foldl (mergeStep tol) (mergeStep tol acc p) rest).length
        ≤ (mergeStep tol acc p).length + rest.length :=
          foldl_mergeStep_length tol rest _
      _ ≤ (acc.length + 1) + rest.length :=
          Nat.add_le_add_right (mergeStep_length_le tol acc p) _
      _ = acc.length + (p :: rest).length := by simp; omega

theorem mergePts_length_le (tol : ℚ) (ps : List Point) :
    (mergePts tol ps).length ≤ ps.length := by
  have h := foldl_mergeStep_length tol ps []
  simpa [mergePts] using h

mutual
theorem Block.toInput_false_nPoints :
    ∀ b : Block, (Block.toInput false b).points.length = b.leafPointCount
  | .leaf d => rfl
  | .nested c => by
    show (engineAppend (Composite.inputs false c) false).points.length = _
    rw [engineAppend_false, appendRaw_nPoints]
    exact Composite.inputs_false_sum c

theorem Composite.inputs_false_sum :
    ∀ c : Composite,
      ((Composite.inputs false c).map (fun d => d.points.length)).sum
        = c.leafPointCount
  | .nil => rfl
  | .cons b rest => by
    simp [Composite.inputs, Composite.leafPointCount,
      Block.toInput_false_nPoints b, Composite.inputs_false_sum rest]
end

theorem combine_false_nPoints (C : Composite) (t : ℚ) :
    (CompositeFilters.combine C false t).nPoints = C.leafPointCount := by
  show (engineAppend (C.inputs false) false).points.length = _
  rw [engineAppend_false, appendRaw_nPoints]
  exact Composite.inputs_false_sum C

mutual
theorem Block.toInput_true_nPoints_le :
    ∀ b : Block, (Block.toInput true b).points.length ≤ b.leafPointCount
  | .leaf d => le_refl _
  | .nested c => by
    show (engineAppend (Composite.inputs true c) true).points.length ≤ _
    calc (engineAppend (Composite.inputs true c) true).points.length
        = (mergePts 0 (appendRaw (Composite.inputs true c)).points).length := rfl
      _ ≤ (appendRaw (Composite.inputs true c)).points.length :=
          mergePts_length_le 0 _
      _ = ((Composite.inputs true c).map (fun d => d.points.length)).sum :=
          appendRaw_nPoints _
      _ ≤ c.leafPointCount := Composite.inputs_true_sum_le c

theorem Composite.inputs_true_sum_le :
    ∀ c : Composite,
      ((Composite.inputs true c).map (fun d => d.points.length)).sum
        ≤ c.leafPointCount
  | .nil => le_refl _
  | .cons b rest => by
    simp only [Composite.inputs, List.map_cons, List.sum_cons,
      Composite.leafPointCount]
    exact Nat.add_le_add (Block.toInput_true_nPoints_le b)
      (Composite.inputs_true_sum_le rest)
end

theorem inputs_eq_topInputs (m : Bool) (t : ℚ) :
    ∀ C : Composite,
      Composite.inputs m C
        = Composite.topInputs (fun B => CompositeFilters.combine B m t) C
  | .nil => rfl
  | .cons (.leaf d) rest => by
    simp [Composite.inputs, Composite.topInputs, Block.toInput,
      inputs_eq_topInputs m t rest]
  | .cons (.nested sub) rest => by
    simp [Composite.inputs, Composite.topInputs, Block.toInput,
      CompositeFilters.combine, inputs_eq_topInputs m t rest]

mutual
theorem Block.toInputSt_snd :
    ∀ (m : Bool) (b : Block), (Block.toInputSt m b).2 = b
  | _, .leaf _ => rfl
  | m, .nested c => by
    simp [Block.toInputSt, Composite.inputsSt_snd m c]

theorem Composite.inputsSt_snd :
    ∀ (m : Bool) (c : Composite), (Composite.inputsSt m c).2 = c
  | _, .nil => rfl
  | m, .cons b rest => by
    simp [Composite.inputsSt, Block.toInputSt_snd m b,
      Composite.inputsSt_snd m rest]
end

mutual
theorem Block.leavesSt_snd_of_block : ∀ b : Block, (Block.leavesSt b).2 = b
  | .leaf _ => rfl
  | .nested c => by simp [Block.leavesSt, Composite.leavesSt_snd c]

theorem Composite.leavesSt_snd : ∀ c : Composite, (Composite.leavesSt c).2 = c
  | .nil => rfl
  | .cons b rest => by
    simp [Composite.leavesSt, Block.leavesSt_snd_of_block b, Composite.leavesSt_snd rest]
end

theorem Bounds.addPoint_valid (b : Bounds) (p : Point) (h : b.valid) :
    (b.addPoint p).valid := by
  obtain ⟨hx, hy, hz⟩ := h
  refine ⟨?_, ?_, ?_⟩ <;>
    exact le_trans (min_le_right _ _) (le_max_right _ _)

theorem foldl_addPoint_valid :
    ∀ (l : List Point) (b : Bounds), b.valid → (l.foldl Bounds.addPoint b).valid
  | [], _, h => h
  | p :: rest, b, h =>
    foldl_addPoint_valid rest (b.addPoint p) (Bounds.addPoint_valid b p h)

theorem boundsOf_valid (ps : List Point) (h : ps ≠ []) : (boundsOf ps).valid := by
  match ps, h with
  | p :: rest, _ =>
    exact foldl_addPoint_valid rest _ ⟨le_refl _, le_refl _, le_refl _⟩

theorem boundsOf_corners (b : Bounds) (h : b.valid) : boundsOf b.corners = b := by
  obtain ⟨hx, hy, hz⟩ := h
  simp [boundsOf, Bounds.corners, Bounds.addPoint,
    min_eq_left hx, max_eq_right hx, max_eq_left hx,
    min_eq_left hy, max_eq_right hy, max_eq_left hy,
    min_eq_left hz, max_eq_right hz, max_eq_left hz]

theorem cornerMarkers_nPoints (b : Bounds) (f : ℚ) :
    (cornerMarkersOfBounds b f).nPoints = 32 := rfl

/-! ### Claim theorems -/

/-- C1 (code bug): the `tolerance` argument of `combine` is dead — the source
accepts it but never configures the append filter with it (and drops it on
recursion), so the output is identical for every tolerance value, contrary
to the claim (and to the source's own docstring) that tolerance is the
coincident-point merge distance.  At two points of distance `1` with
`merge_points = true`, the code yields 2 points at tolerance `2`, while the
documented semantics (the engine primitive actually fed the tolerance)
would merge them into 1 point. -/
theorem combine_tolerance_never_used :
    (∀ (C : Composite) (m : Bool) (t₁ t₂ : ℚ),
      CompositeFilters.combine C m t₁ = CompositeFilters.combine C m t₂)
    ∧ (CompositeFilters.combine pairComposite true 2).nPoints = 2
    ∧ (engineAppendTol (pairComposite.inputs true) true 2).nPoints = 1 := by
  refine ⟨fun C m t₁ t₂ => rfl, ?_, ?_⟩
  · norm_num [CompositeFilters.combine, engineAppend, engineAppendTol,
      Composite.inputs, Block.toInput, pairComposite, dOrigin, dUnitX,
      appendRaw, mergePts, mergeStep, coincident, sqDist, Dataset.nPoints]
  · norm_num [engineAppendTol, Composite.inputs, Block.toInput, pairComposite,
      dOrigin, dUnitX, appendRaw, mergePts, mergeStep, coincident, sqDist,
      Dataset.nPoints, engineAppend]

/-- C2: `combine(C, m, t)` appends, for each top-level block, either the
block's dataset directly (leaf) or the recursive combination of the nested
composite with the same `merge_points` and the same tolerance `t`, and feeds
the whole list to the merge-aware append filter. -/
theorem combine_recursive_structure :
    ∀ (C : Composite) (m : Bool) (t : ℚ),
      CompositeFilters.combine C m t
        = engineAppend
            (C.topInputs (fun B => CompositeFilters.combine B m t)) m := by
  intro C m t
  show engineAppend (C.inputs m) m = _
  rw [← inputs_eq_topInputs m t C]

/-- C3: neither `combine` nor `extract_geometry` mutates the input composite
or any of its blocks — reading the calls as explicit state transformers, the
composite left behind is the input itself, so bounds, point counts and cell
counts of every block are identical before and after, for every surface
extractor the engine may apply to each leaf. -/
theorem combine_extract_geometry_no_mutation :
    ∀ (surf : Dataset → Dataset) (C : Composite) (m : Bool) (t : ℚ),
      (CompositeFilters.combineSt C m t).2 = C
      ∧ (CompositeFilters.extract_geometry surf C).2 = C
      ∧ ((CompositeFilters.combineSt C m t).2).obs = C.obs
      ∧ ((CompositeFilters.extract_geometry surf C).2).obs = C.obs := by
  intro surf C m t
  have h1 : (CompositeFilters.combineSt C m t).2 = C := Composite.inputsSt_snd m C
  have h2 : (CompositeFilters.extract_geometry surf C).2 = C :=
    Composite.leavesSt_snd C
  exact ⟨h1, h2, by rw [h1], by rw [h2]⟩

/-- C4: without merging, combining is additive — the point count of
`combine(C, merge_points := false)` is exactly the sum of the point counts
of all leaf blocks of `C`, whatever the (unused) tolerance. -/
theorem combine_no_merge_point_count :
    ∀ (C : Composite) (t : ℚ),
      (CompositeFilters.combine C false t).nPoints = C.leafPointCount :=
  fun C t => combine_false_nPoints C t

/-- C5: enabling point merging never increases the point count —
`combine(C, true, 0)` has at most as many points as `combine(C, false, 0)`. -/
theorem combine_merge_point_count_le :
    ∀ C : Composite,
      (CompositeFilters.combine C true 0).nPoints
        ≤ (CompositeFilters.combine C false 0).nPoints := by
  intro C
  rw [combine_false_nPoints C 0]
  show (engineAppend (C.inputs true) true).points.length ≤ _
  calc (engineAppend (C.inputs true) true).points.length
      = (mergePts 0 (appendRaw (C.inputs true)).points).length := rfl
    _ ≤ (appendRaw (C.inputs true)).points.length := mergePts_length_le 0 _
    _ = ((C.inputs true).map (fun d => d.points.length)).sum :=
        appendRaw_nPoints _
    _ ≤ C.leafPointCount := Composite.inputs_true_sum_le C

/-- C6: for a non-empty composite, `outline(C, g, nested := false)` has
exactly the bounds spanning all blocks (min/max over all leaf point
coordinates), and it is precisely the outline of the canonical box built
for those bounds (edges only, or faces when `generate_faces`). -/
theorem outline_bounds_spans_blocks :
    ∀ (C : Composite) (g : Bool), C.allPoints ≠ [] →
      (CompositeFilters.outline C g false).bounds = C.bounds
      ∧ CompositeFilters.outline C g false = outlineOfBounds C.bounds g := by
  intro C g h
  have hv : C.bounds.valid := boundsOf_valid _ h
  have hbox : boundsOf (Box C.bounds).points = C.bounds := boundsOf_corners _ hv
  constructor
  · show (outlineOfBounds (boundsOf (Box C.bounds).points) g).bounds = _
    rw [hbox]
    show boundsOf C.bounds.corners = C.bounds
    exact boundsOf_corners _ hv
  · show outlineOfBounds (boundsOf (Box C.bounds).points) g = _
    rw [hbox]

/-- Witness for C6 at a concrete one-leaf composite. -/
theorem outline_bounds_spans_blocks_witness :
    (CompositeFilters.outline sampleA false false).bounds = sampleA.bounds
    ∧ CompositeFilters.outline sampleA false false
        = outlineOfBounds sampleA.bounds false :=
  outline_bounds_spans_blocks sampleA false (by decide)

/-- C7: the factor of `outline_corners` scales the corner markers but never
changes how many marker points are produced — any two positive, distinct
factors give the same point count. -/
theorem outline_corners_count_independent_of_factor :
    ∀ (C : Composite) (f₁ f₂ : ℚ), f₁ ≠ f₂ → 0 < f₁ → 0 < f₂ →
      (CompositeFilters.outline_corners C f₁ false).nPoints
        = (CompositeFilters.outline_corners C f₂ false).nPoints := by
  intro C f₁ f₂ _ _ _
  show (cornerMarkersOfBounds _ f₁).nPoints = (cornerMarkersOfBounds _ f₂).nPoints
  rw [cornerMarkers_nPoints, cornerMarkers_nPoints]

/-- Witness for C7 at factors `1/2` and `1/3`. -/
theorem outline_corners_count_independent_of_factor_witness :
    (CompositeFilters.outline_corners sampleA (1/2) false).nPoints
      = (CompositeFilters.outline_corners sampleA (1/3) false).nPoints :=
  outline_corners_count_independent_of_factor sampleA (1/2) (1/3)
    (by norm_num) (by norm_num) (by norm_num)

/-- C8: the thirteen aliased operations are bound unmodified from the
single-dataset filter set — for every sibling implementation, every input
and every argument list, the composite-layer binding returns exactly what
the single-dataset operation returns. -/
theorem aliased_operations_bound_unmodified :
    ∀ (α β : Type) (D : FilterSet α β) (x : α),
      (compositeAliased D).clip x = D.clip x
      ∧ (compositeAliased D).clip_box x = D.clip_box x
      ∧ (compositeAliased D).slice x = D.slice x
      ∧ (compositeAliased D).slice_orthogonal x = D.slice_orthogonal x
      ∧ (compositeAliased D).slice_along_axis x = D.slice_along_axis x
      ∧ (compositeAliased D).slice_along_line x = D.slice_along_line x
      ∧ (compositeAliased D).extract_all_edges x = D.extract_all_edges x
      ∧ (compositeAliased D).elevation x = D.elevation x
      ∧ (compositeAliased D).compute_cell_sizes x = D.compute_cell_sizes x
      ∧ (compositeAliased D).cell_centers x = D.cell_centers x
      ∧ (compositeAliased D).cell_data_to_point_data x
          = D.cell_data_to_point_data x
      ∧ (compositeAliased D).point_data_to_cell_data x
          = D.point_data_to_cell_data x
      ∧ (compositeAliased D).triangulate x = D.triangulate x :=
  fun _ _ _ _ =>
    ⟨rfl, rfl, rfl, rfl, rfl, rfl, rfl, rfl, rfl, rfl, rfl, rfl, rfl⟩

/-- C9: with `nested := true`, both `outline` and `outline_corners` delegate
entirely to the single-dataset operation applied directly to the composite,
with the same `generate_faces` and `factor`. -/
theorem outline_nested_delegates_to_single_dataset :
    ∀ (C : Composite) (g : Bool) (f : ℚ),
      CompositeFilters.outline C g true = DataSetFilters.outline C.allPoints g
      ∧ CompositeFilters.outline_corners C f true
          = DataSetFilters.outline_corners C.allPoints f :=
  fun _ _ _ => ⟨rfl, rfl⟩

/-- C10: with `nested := false`, the outputs of `outline` and
`outline_corners` depend only on the composite's bounds — composites with
equal bounds but different block structure, cells or point multiplicity
produce identical outputs. -/
theorem outline_depends_only_on_bounds :
    ∀ (C₁ C₂ : Composite) (g : Bool) (f : ℚ), C₁.bounds = C₂.bounds →
      CompositeFilters.outline C₁ g false = CompositeFilters.outline C₂ g false
      ∧ CompositeFilters.outline_corners C₁ f false
          = CompositeFilters.outline_corners C₂ f false := by
  intro C₁ C₂ g f h
  constructor
  · show DataSetFilters.outline (Box C₁.bounds).points g
        = DataSetFilters.outline (Box C₂.bounds).points g
    rw [h]
  · show DataSetFilters.outline_corners (Box C₁.bounds).points f
        = DataSetFilters.outline_corners (Box C₂.bounds).points f
    rw [h]

/-- Witness for C10 at two structurally different composites with equal
bounds. -/
theorem outline_depends_only_on_bounds_witness :
    CompositeFilters.outline sampleA true false
        = CompositeFilters.outline sampleB true false
    ∧ CompositeFilters.outline_corners sampleA (1/4) false
        = CompositeFilters.outline_corners sampleB (1/4) false :=
  outline_depends_only_on_bounds sampleA sampleB true (1/4) (by decide)
